import Mathlib

/-!
Shallow embedding of PicCut's core image-processing logic (`processor.py`)
and proofs of its specified properties.

The embedding follows the Python source function by function:
`_has_alpha`, `_rgb_for_detection`, `detect_whitespace`, `trim_whitespace`
(split into its pure pipeline and its save step), and `process_targets`
(the batch loop, with per-file success/failure supplied as an oracle and
the Pillow filesystem/decoding calls abstracted away).
-/

namespace PicCut

/-- A pixel: four 8-bit channel values (red, green, blue, alpha).
Opaque modes carry `a = 255`. -/
structure Pix where
  r : Nat
  g : Nat
  b : Nat
  a : Nat
deriving DecidableEq, Repr

/-- Pillow pixel-format mode, restricted to the modes the program
distinguishes: `"RGB"`, `"RGBA"`, `"L"`, `"LA"`, `"P"`. -/
inductive Mode where
  | RGB | RGBA | L | LA | P
deriving DecidableEq, Repr

/-- Whether a mode's band list contains the alpha band `"A"`
(`"A" in img.getbands()` in the source). -/
def Mode.hasAlphaBand : Mode → Bool
  | .RGBA => true
  | .LA => true
  | _ => false

/-- An in-memory raster image: width, height, pixel mode, pixel data
addressable by (x, y), and whether `"transparency"` is present in
`img.info` (palette transparency). Pixels of palette images are modelled
post-lookup as RGBA values. -/
structure Img where
  width : Nat
  height : Nat
  mode : Mode
  px : Nat → Nat → Pix
  infoTransparency : Bool

/-- Background color mode: `color_type` is `"white"` or `"black"`. -/
inductive ColorType where
  | white | black
deriving DecidableEq, Repr

/-- Axis mode: `direction` is `"horizontal"`, `"vertical"` or `"both"`. -/
inductive Direction where
  | horizontal | vertical | both
deriving DecidableEq, Repr

/-- `_has_alpha`: true iff the mode has an alpha band or palette
transparency is recorded in `img.info`. -/
def has_alpha (img : Img) : Bool :=
  img.mode.hasAlphaBand || img.infoTransparency

/-- `img.convert("RGB")`: mode becomes RGB, alpha channel dropped
(channel values kept), transparency info discarded. -/
def convertRGB (img : Img) : Img :=
  { width := img.width, height := img.height, mode := Mode.RGB,
    px := fun x y => let p := img.px x y; ⟨p.r, p.g, p.b, 255⟩,
    infoTransparency := false }

/-- Alpha-blend a foreground pixel over an opaque background color,
as `base.paste(tmp, (0,0), tmp)` does per channel. -/
def blendOver (bg : Nat) (fg : Nat) (a : Nat) : Nat :=
  (fg * a + bg * (255 - a)) / 255

/-- `_rgb_for_detection`: if the image has alpha, composite it onto an
opaque white (white mode) or black (black mode) background and convert to
RGB; otherwise convert to RGB directly. -/
def rgb_for_detection (img : Img) (color_type : ColorType) : Img :=
  if has_alpha img then
    let bgv : Nat := if color_type = ColorType.white then 255 else 0
    { width := img.width, height := img.height, mode := Mode.RGB,
      px := fun x y =>
        let p := img.px x y
        ⟨blendOver bgv p.r p.a, blendOver bgv p.g p.a, blendOver bgv p.b p.a, 255⟩,
      infoTransparency := false }
  else
    convertRGB img

/-- `is_bg` inside `detect_whitespace`: a pixel is background under black
mode iff all channels are `≤ thr`, otherwise (white mode) iff all channels
are `≥ 255 - thr`. -/
def is_bg (color_type : ColorType) (thr : Nat) (p : Pix) : Bool :=
  match color_type with
  | .black => p.r ≤ thr && p.g ≤ thr && p.b ≤ thr
  | .white => 255 - thr ≤ p.r && 255 - thr ≤ p.g && 255 - thr ≤ p.b

/-- Column `x` contains at least one non-background pixel
(`any(not is_bg(px[x,y]) for y in range(h))`). -/
def colHasContent (img : Img) (ct : ColorType) (thr : Nat) (x : Nat) : Bool :=
  (List.range img.height).any fun y => !is_bg ct thr (img.px x y)

/-- Row `y` contains at least one non-background pixel
(`any(not is_bg(px[x,y]) for x in range(w))`). -/
def rowHasContent (img : Img) (ct : ColorType) (thr : Nat) (y : Nat) : Bool :=
  (List.range img.width).any fun x => !is_bg ct thr (img.px x y)

/-- The final clamping step of `detect_whitespace`, applied to the raw
scan results. -/
def clampBox (w h l r t b : Nat) : Nat × Nat × Nat × Nat :=
  let left := max 0 (min l (w - 1))
  let right := max (left + 1) (min r w)
  let top := max 0 (min t (h - 1))
  let bottom := max (top + 1) (min b h)
  (left, right, top, bottom)

/-- `detect_whitespace(img_rgb, color_type, direction, thr=70)`: scan from
each edge for the first column/row containing a non-background pixel; a
scan that finds nothing leaves the sentinel (0 for left/top, `w`/`h` for
right/bottom); finally clamp into a strictly non-empty box. -/
def detect_whitespace (img : Img) (color_type : ColorType)
    (direction : Direction) (thr : Nat := 70) : Nat × Nat × Nat × Nat :=
  let w := img.width
  let h := img.height
  let scanH : Bool := direction = Direction.horizontal || direction = Direction.both
  let scanV : Bool := direction = Direction.vertical || direction = Direction.both
  let left : Nat :=
    if scanH then ((List.range w).find? (colHasContent img color_type thr)).getD 0
    else 0
  let right : Nat :=
    if scanH then
      (((List.range w).reverse.find? (colHasContent img color_type thr)).map (· + 1)).getD w
    else w
  let top : Nat :=
    if scanV then ((List.range h).find? (rowHasContent img color_type thr)).getD 0
    else 0
  let bottom : Nat :=
    if scanV then
      (((List.range h).reverse.find? (rowHasContent img color_type thr)).map (· + 1)).getD h
    else h
  clampBox w h left right top bottom

/-- `orig.crop((l, t, r, b))`: an (r−l)×(b−t) image reading pixels at
offset (l, t); mode and transparency info are preserved. -/
def cropImg (img : Img) (l t r b : Nat) : Img :=
  { width := r - l, height := b - t, mode := img.mode,
    px := fun x y => img.px (l + x) (t + y),
    infoTransparency := img.infoTransparency }

/-- `Image.new(mode, (w, h), fill)`: a fresh canvas of one color. -/
def newImg (mode : Mode) (w h : Nat) (fill : Pix) : Img :=
  { width := w, height := h, mode := mode,
    px := fun _ _ => fill, infoTransparency := false }

/-- Blend one channel of `fg` over `bg` by `fg`'s alpha, as
`canvas.paste(cropped, (mw, mh), cropped)` does. -/
def pasteBlend (bg fg : Pix) : Pix :=
  ⟨blendOver bg.r fg.r fg.a, blendOver bg.g fg.g fg.a,
   blendOver bg.b fg.b fg.a, blendOver bg.a 255 fg.a⟩

/-- `canvas.paste(cropped, (mw, mh), mask)`: inside the pasted region use
the content (alpha-blended when an RGBA mask is given), elsewhere keep the
canvas fill. -/
def pasteImg (canvas content : Img) (mw mh : Nat) (useMask : Bool) : Img :=
  { canvas with
    px := fun x y =>
      if mw ≤ x ∧ x < mw + content.width ∧ mh ≤ y ∧ y < mh + content.height then
        let fg := content.px (x - mw) (y - mh)
        if useMask then pasteBlend (canvas.px x y) fg else fg
      else canvas.px x y }

/-- The pure pipeline of `trim_whitespace` before saving: build the
detection view, detect the box with `thr=70`, crop the original, and if
`keep_margin_percent > 0` paste the crop centered on a transparent RGBA
canvas (when the crop has alpha) or a white RGB canvas, with margin
pixels `int(w*pct/100.0)` / `int(h*pct/100.0)` from the original size. -/
def trim_core (orig : Img) (keep_margin_percent : Nat)
    (color_type : ColorType) (direction : Direction) : Img :=
  let w := orig.width
  let h := orig.height
  let det := rgb_for_detection orig color_type
  let box := detect_whitespace det color_type direction 70
  let l := box.1
  let r := box.2.1
  let t := box.2.2.1
  let b := box.2.2.2
  let cropped := cropImg orig l t r b
  if keep_margin_percent > 0 then
    let mw := w * keep_margin_percent / 100
    let mh := h * keep_margin_percent / 100
    let nw := (r - l) + 2 * mw
    let nh := (b - t) + 2 * mh
    let canvas :=
      if has_alpha cropped then newImg Mode.RGBA nw nh ⟨0, 0, 0, 0⟩
      else newImg Mode.RGB nw nh ⟨255, 255, 255, 255⟩
    pasteImg canvas cropped mw mh (cropped.mode = Mode.RGBA)
  else cropped

/-- ASCII lowercase of a string, as `.lower()` on an extension. -/
def lowerStr (s : String) : String :=
  String.mk (s.data.map Char.toLower)

/-- `os.path.splitext(p)[1]`: the extension of `p` — from the last `.` of
the basename, provided a non-dot character precedes it in the basename
(so dotfiles like `.png` have no extension). -/
def extOfPath (p : String) : String :=
  let base := (p.data.reverse.takeWhile (fun c => c ≠ '/')).reverse
  let rafter := base.reverse.takeWhile (fun c => c ≠ '.')
  if rafter.length = base.length then ""
  else
    let pre := base.take (base.length - rafter.length - 1)
    if pre.any (fun c => c ≠ '.') then String.mk ('.' :: rafter.reverse) else ""

/-- The save step of `trim_whitespace`: for a `.jpg`/`.jpeg`/`.bmp`
output (extension lowercased) an image with alpha or a mode outside
RGB/L is converted to RGB first; any other extension saves the image
as-is. Returns the image actually encoded. -/
def saveStep (output_path : String) (img : Img) : Img :=
  let ext := lowerStr (extOfPath output_path)
  if ext = ".jpg" ∨ ext = ".jpeg" ∨ ext = ".bmp" then
    if has_alpha img || !(img.mode = Mode.RGB || img.mode = Mode.L) then
      convertRGB img
    else img
  else img

/-- `trim_whitespace` end to end (modulo actual disk I/O): the image
written to `output_path`. -/
def trim_whitespace (orig : Img) (output_path : String)
    (keep_margin_percent : Nat) (color_type : ColorType)
    (direction : Direction) : Img :=
  saveStep output_path (trim_core orig keep_margin_percent color_type direction)

/-- `os.path.dirname(p)`: everything before the last `/` (empty if none). -/
def dirnameOf (p : String) : String :=
  let r := p.data.reverse
  let after := r.takeWhile (fun c => c ≠ '/')
  if after.length = r.length then ""
  else String.mk ((r.drop (after.length + 1)).reverse)

/-- `os.path.basename(p)`: everything after the last `/`. -/
def basenameOf (p : String) : String :=
  String.mk ((p.data.reverse.takeWhile (fun c => c ≠ '/')).reverse)

/-- The output path `os.path.join(dirname(src), "Remake", basename(src))`
built by `process_targets` for each target. -/
def outPathFor (src : String) : String :=
  let d := dirnameOf src
  if d = "" then "Remake/" ++ basenameOf src
  else d ++ "/Remake/" ++ basenameOf src

/-- State threaded through the batch loop of `process_targets`: the error
strings accumulated so far, the trace of `progress_cb` calls issued so far
(in order), and how many files have been processed (the `try` block
entered). -/
structure BatchState where
  errors : List String
  progressLog : List (Nat × Nat)
  processed : Nat
deriving DecidableEq, Repr

/-- The per-target loop of `process_targets`. Each target is paired with
its 1-based index `i` from `enumerate(targets, 1)`. `trimResult src`
stands for the `trim_whitespace` call: `.ok` if it returns, `.error e` if
it raises `e`. `is_cancelled` is the caller's cancellation predicate; its
value may change over the run, so it is modelled as a function of the
number of progress callbacks issued so far (the observable events of the
run). A raised error is recorded as `f"{src}: {e}"` and the loop
continues; cancellation is checked once before each file and breaks the
loop. -/
def batchLoop (trimResult : String → Except String Unit)
    (is_cancelled : Nat → Bool) (total : Nat) :
    Nat → List String → BatchState → BatchState
  | _, [], st => st
  | i, src :: rest, st =>
    if is_cancelled st.progressLog.length then st
    else
      let st1 :=
        match trimResult src with
        | .ok _ => { st with processed := st.processed + 1 }
        | .error e =>
          { st with processed := st.processed + 1,
                    errors := st.errors ++ [src ++ ": " ++ e] }
      let st2 := { st1 with progressLog := st1.progressLog ++ [(i, total)] }
      batchLoop trimResult is_cancelled total (i + 1) rest st2

/-- `process_targets` after target collection: report `(0, total)`, then
run the per-file loop over `enumerate(targets, 1)`, returning the final
state (whose `errors` field is the function's return value). -/
def process_targets (targets : List String)
    (trimResult : String → Except String Unit)
    (is_cancelled : Nat → Bool) : BatchState :=
  let total := targets.length
  batchLoop trimResult is_cancelled total 1 targets
    { errors := [], progressLog := [(0, total)], processed := 0 }

/-- The error-list entry `process_targets` records for one target:
`none` when `trim_whitespace` returns, `some "<src>: <e>"` when it
raises `e`. -/
def errEntry (trimResult : String → Except String Unit)
    (src : String) : Option String :=
  match trimResult src with
  | .ok _ => none
  | .error e => some (src ++ ": " ++ e)

/-- The cancellation flag of the C9 scenario: it becomes true the moment
the 2nd progress callback has been issued. -/
def cancelAfter2 : Nat → Bool := fun n => decide (2 ≤ n)

/-- Five target files for the C9 scenario. -/
def fiveFiles : List String :=
  ["d/f1.png", "d/f2.png", "d/f3.png", "d/f4.png", "d/f5.png"]

/-- A trim oracle on which every file succeeds. -/
def allOk : String → Except String Unit := fun _ => Except.ok ()

/-- A trim oracle on which the first scenario file fails. -/
def failFirst : String → Except String Unit :=
  fun s => if s = "d/f1.png" then Except.error "boom" else Except.ok ()

/-- The batch invocation surface as the program exposes it (`gui.py`
passes `color_type`, `direction` and `keep_margin_percent` to
`process_targets`, which forwards them to `trim_whitespace`), extended
with the threshold a caller might intend to configure. No field of the
actual call surface carries a threshold and `trim_whitespace` hardwires
`thr=70`, so `intended_threshold` is consumed nowhere. -/
structure RunConfig where
  color_type : ColorType
  direction : Direction
  keep_margin_percent : Nat
  intended_threshold : Nat

/-- One file processed under a `RunConfig`: exactly the call
`trim_whitespace(src, out, keep_margin_percent, color_type, direction)`
made by `process_targets`. -/
def runTrim (cfg : RunConfig) (orig : Img) (output_path : String) : Img :=
  trim_whitespace orig output_path cfg.keep_margin_percent
    cfg.color_type cfg.direction

/-! ### Concrete images used by witnesses and the C4 scenario -/

/-- `a.png` of the batch scenario: a 10×10 all-white RGB image. -/
def aImg : Img :=
  { width := 10, height := 10, mode := Mode.RGB,
    px := fun _ _ => ⟨255, 255, 255, 255⟩, infoTransparency := false }

/-- `b.png` of the batch scenario: a 10×10 white RGB image with a 2×2
black square at (4, 4). -/
def bImg : Img :=
  { width := 10, height := 10, mode := Mode.RGB,
    px := fun x y =>
      if 4 ≤ x ∧ x < 6 ∧ 4 ≤ y ∧ y < 6 then ⟨0, 0, 0, 255⟩
      else ⟨255, 255, 255, 255⟩,
    infoTransparency := false }

/-- A 3×3 white RGB image with a single black pixel at (1, 1). -/
def onePix3 : Img :=
  { width := 3, height := 3, mode := Mode.RGB,
    px := fun x y => if x = 1 ∧ y = 1 then ⟨0, 0, 0, 255⟩ else ⟨255, 255, 255, 255⟩,
    infoTransparency := false }

/-- A 2×2 all-black RGB image: its content touches all four edges under
white-background detection. -/
def allBlack2 : Img :=
  { width := 2, height := 2, mode := Mode.RGB,
    px := fun _ _ => ⟨0, 0, 0, 255⟩, infoTransparency := false }

/-- The directory `d` of the batch scenario: it contains exactly `a.png`
and `b.png`, walked in name order. -/
def c4Dir : List (String × Img) := [("d/a.png", aImg), ("d/b.png", bImg)]

/-- The batch of the scenario: each file of `c4Dir` is trimmed with
axis BOTH, color WHITE, margin 0 and written to
`dirname/Remake/basename`; the result pairs each output path with the
image written there. -/
def c4Outputs : List (String × Img) :=
  c4Dir.map fun pi =>
    (outPathFor pi.1,
     trim_whitespace pi.2 (outPathFor pi.1) 0 ColorType.white Direction.both)

end PicCut

namespace PicCut

/-! ### Helper lemmas -/

theorem find_of_unique {l : List Nat} {p : Nat → Bool} {x0 : Nat}
    (hmem : x0 ∈ l) (hp : ∀ x ∈ l, p x = decide (x = x0)) :
    l.find? p = some x0 := by
  induction l with
  | nil => cases hmem
  | cons a l ih =>
    by_cases hax : a = x0
    · subst hax
      have hpa : p a = true := by rw [hp a (List.mem_cons_self a l)]; simp
      simp [List.find?, hpa]
    · have hpa : p a = false := by rw [hp a (List.mem_cons_self a l)]; simp [hax]
      have hmem' : x0 ∈ l := by
        rcases List.mem_cons.mp hmem with h | h
        · exact absurd h.symm hax
        · exact h
      simp only [List.find?, hpa]
      exact ih hmem' fun x hx => hp x (List.mem_cons_of_mem a hx)

theorem colHasContent_eq_true {img : Img} {ct : ColorType} {thr x : Nat} :
    colHasContent img ct thr x = true ↔
      ∃ y, y < img.height ∧ is_bg ct thr (img.px x y) = false := by
  simp [colHasContent, List.any_eq_true, List.mem_range]

theorem rowHasContent_eq_true {img : Img} {ct : ColorType} {thr y : Nat} :
    rowHasContent img ct thr y = true ↔
      ∃ x, x < img.width ∧ is_bg ct thr (img.px x y) = false := by
  simp [rowHasContent, List.any_eq_true, List.mem_range]

theorem Img.eq_of_fields {i j : Img} (hw : i.width = j.width)
    (hh : i.height = j.height) (hm : i.mode = j.mode) (hp : i.px = j.px)
    (hi : i.infoTransparency = j.infoTransparency) : i = j := by
  cases i; cases j; simp_all

theorem rgb_for_detection_dims (img : Img) (ct : ColorType) :
    (rgb_for_detection img ct).width = img.width ∧
    (rgb_for_detection img ct).height = img.height := by
  simp only [rgb_for_detection, convertRGB]
  split <;> exact ⟨rfl, rfl⟩

theorem find_range_head {w : Nat} (hw : 1 ≤ w) {p : Nat → Bool}
    (h0 : p 0 = true) : (List.range w).find? p = some 0 := by
  obtain ⟨n, rfl⟩ : ∃ n, w = n + 1 := ⟨w - 1, by omega⟩
  rw [List.range_succ_eq_map]
  simp [List.find?, h0]

theorem find_range_reverse_last {w : Nat} (hw : 1 ≤ w) {p : Nat → Bool}
    (h1 : p (w - 1) = true) :
    (List.range w).reverse.find? p = some (w - 1) := by
  obtain ⟨n, rfl⟩ : ∃ n, w = n + 1 := ⟨w - 1, by omega⟩
  have hn : n + 1 - 1 = n := by omega
  rw [hn] at h1 ⊢
  rw [List.range_succ, List.reverse_append]
  simp [List.find?, h1]

theorem clampBox_invariants (w h l r t b : Nat) (hw : 1 ≤ w) (hh : 1 ≤ h) :
    (clampBox w h l r t b).1 < (clampBox w h l r t b).2.1 ∧
    (clampBox w h l r t b).2.1 ≤ w ∧
    (clampBox w h l r t b).2.2.1 < (clampBox w h l r t b).2.2.2 ∧
    (clampBox w h l r t b).2.2.2 ≤ h := by
  simp only [clampBox]
  omega

end PicCut

/-- C1: under WHITE mode a pixel is background iff all three channels are
≥ 255 − thr; under BLACK mode iff all three are ≤ thr (`255 − thr` is
truncated subtraction, matching Python since channel values are ≥ 0);
and `detect_whitespace`'s threshold parameter defaults to 70. -/
theorem C1_pixel_classification :
    (∀ (thr r g b a : Nat),
      PicCut.is_bg PicCut.ColorType.white thr ⟨r, g, b, a⟩ = true ↔
        (255 - thr ≤ r ∧ 255 - thr ≤ g ∧ 255 - thr ≤ b)) ∧
    (∀ (thr r g b a : Nat),
      PicCut.is_bg PicCut.ColorType.black thr ⟨r, g, b, a⟩ = true ↔
        (r ≤ thr ∧ g ≤ thr ∧ b ≤ thr)) ∧
    (∀ (img : PicCut.Img) (ct : PicCut.ColorType) (dir : PicCut.Direction),
      PicCut.detect_whitespace img ct dir = PicCut.detect_whitespace img ct dir 70) := by
  refine ⟨?_, ?_, fun _ _ _ => rfl⟩ <;>
    intro thr r g b a <;> simp [PicCut.is_bg] <;> tauto

/-- C2: for any image with positive width and height, any color mode, axis
mode and threshold, the detected box satisfies
0 ≤ left < right ≤ width and 0 ≤ top < bottom ≤ height — a strictly
non-empty box even when every pixel is background. (The embedding is a
total function, so detection never throws.) -/
theorem C2_box_invariants (img : PicCut.Img) (ct : PicCut.ColorType)
    (dir : PicCut.Direction) (thr : Nat)
    (hw : 1 ≤ img.width) (hh : 1 ≤ img.height) :
    0 ≤ (PicCut.detect_whitespace img ct dir thr).1 ∧
    (PicCut.detect_whitespace img ct dir thr).1 <
      (PicCut.detect_whitespace img ct dir thr).2.1 ∧
    (PicCut.detect_whitespace img ct dir thr).2.1 ≤ img.width ∧
    0 ≤ (PicCut.detect_whitespace img ct dir thr).2.2.1 ∧
    (PicCut.detect_whitespace img ct dir thr).2.2.1 <
      (PicCut.detect_whitespace img ct dir thr).2.2.2 ∧
    (PicCut.detect_whitespace img ct dir thr).2.2.2 ≤ img.height := by
  have h := PicCut.clampBox_invariants img.width img.height
    (if (dir = PicCut.Direction.horizontal || dir = PicCut.Direction.both : Bool) then
      ((List.range img.width).find? (PicCut.colHasContent img ct thr)).getD 0 else 0)
    (if (dir = PicCut.Direction.horizontal || dir = PicCut.Direction.both : Bool) then
      (((List.range img.width).reverse.find? (PicCut.colHasContent img ct thr)).map
        (· + 1)).getD img.width else img.width)
    (if (dir = PicCut.Direction.vertical || dir = PicCut.Direction.both : Bool) then
      ((List.range img.height).find? (PicCut.rowHasContent img ct thr)).getD 0 else 0)
    (if (dir = PicCut.Direction.vertical || dir = PicCut.Direction.both : Bool) then
      (((List.range img.height).reverse.find? (PicCut.rowHasContent img ct thr)).map
        (· + 1)).getD img.height else img.height)
    hw hh
  exact ⟨Nat.zero_le _, h.1, h.2.1, Nat.zero_le _, h.2.2.1, h.2.2.2⟩

/-- C3: for any RGB image whose only non-background pixel sits at
(x0, y0), detection under axis mode BOTH returns exactly
left = x0, right = x0 + 1, top = y0, bottom = y0 + 1. -/
theorem C3_single_pixel (img : PicCut.Img) (ct : PicCut.ColorType)
    (thr x0 y0 : Nat) (hx0 : x0 < img.width) (hy0 : y0 < img.height)
    (hone : ∀ x, x < img.width → ∀ y, y < img.height →
      (PicCut.is_bg ct thr (img.px x y) = false ↔ x = x0 ∧ y = y0)) :
    PicCut.detect_whitespace img ct PicCut.Direction.both thr =
      (x0, x0 + 1, y0, y0 + 1) := by
  have hcol : ∀ x ∈ List.range img.width,
      PicCut.colHasContent img ct thr x = decide (x = x0) := by
    intro x hx
    rw [List.mem_range] at hx
    by_cases hxx : x = x0
    · subst hxx
      have hc : PicCut.colHasContent img ct thr x = true :=
        PicCut.colHasContent_eq_true.mpr ⟨y0, hy0, (hone x hx y0 hy0).mpr ⟨rfl, rfl⟩⟩
      simp [hc]
    · have hc : PicCut.colHasContent img ct thr x = false := by
        apply Bool.eq_false_iff.mpr
        intro hc
        obtain ⟨y, hy, hbg⟩ := PicCut.colHasContent_eq_true.mp hc
        exact hxx ((hone x hx y hy).mp hbg).1
      simp [hc, hxx]
  have hrow : ∀ y ∈ List.range img.height,
      PicCut.rowHasContent img ct thr y = decide (y = y0) := by
    intro y hy
    rw [List.mem_range] at hy
    by_cases hyy : y = y0
    · subst hyy
      have hr : PicCut.rowHasContent img ct thr y = true :=
        PicCut.rowHasContent_eq_true.mpr ⟨x0, hx0, (hone x0 hx0 y hy).mpr ⟨rfl, rfl⟩⟩
      simp [hr]
    · have hr : PicCut.rowHasContent img ct thr y = false := by
        apply Bool.eq_false_iff.mpr
        intro hr
        obtain ⟨x, hx, hbg⟩ := PicCut.rowHasContent_eq_true.mp hr
        exact hyy ((hone x hx y hy).mp hbg).2
      simp [hr, hyy]
  have hfL : (List.range img.width).find? (PicCut.colHasContent img ct thr) = some x0 :=
    PicCut.find_of_unique (List.mem_range.mpr hx0) hcol
  have hfR : (List.range img.width).reverse.find? (PicCut.colHasContent img ct thr) =
      some x0 :=
    PicCut.find_of_unique (List.mem_reverse.mpr (List.mem_range.mpr hx0))
      fun x hx => hcol x (List.mem_reverse.mp hx)
  have hfT : (List.range img.height).find? (PicCut.rowHasContent img ct thr) = some y0 :=
    PicCut.find_of_unique (List.mem_range.mpr hy0) hrow
  have hfB : (List.range img.height).reverse.find? (PicCut.rowHasContent img ct thr) =
      some y0 :=
    PicCut.find_of_unique (List.mem_reverse.mpr (List.mem_range.mpr hy0))
      fun y hy => hrow y (List.mem_reverse.mp hy)
  simp only [PicCut.detect_whitespace, hfL, hfR, hfT, hfB]
  simp [PicCut.clampBox, Prod.ext_iff]
  omega

/-- Witness for C3: the 3×3 white image whose single black pixel is at
(1, 1), under white mode with threshold 70. -/
theorem C3_single_pixel_witness :
    PicCut.detect_whitespace PicCut.onePix3 PicCut.ColorType.white
      PicCut.Direction.both 70 = (1, 2, 1, 2) :=
  C3_single_pixel PicCut.onePix3 PicCut.ColorType.white 70 1 1
    (by decide) (by decide) (by decide)

/-- Witness for C2 at a concrete input: the all-white 10×10 image. -/
theorem C2_box_invariants_witness :
    0 ≤ (PicCut.detect_whitespace PicCut.aImg PicCut.ColorType.white
          PicCut.Direction.both 70).1 ∧
    (PicCut.detect_whitespace PicCut.aImg PicCut.ColorType.white
      PicCut.Direction.both 70).1 <
      (PicCut.detect_whitespace PicCut.aImg PicCut.ColorType.white
        PicCut.Direction.both 70).2.1 ∧
    (PicCut.detect_whitespace PicCut.aImg PicCut.ColorType.white
      PicCut.Direction.both 70).2.1 ≤ PicCut.aImg.width ∧
    0 ≤ (PicCut.detect_whitespace PicCut.aImg PicCut.ColorType.white
          PicCut.Direction.both 70).2.2.1 ∧
    (PicCut.detect_whitespace PicCut.aImg PicCut.ColorType.white
      PicCut.Direction.both 70).2.2.1 <
      (PicCut.detect_whitespace PicCut.aImg PicCut.ColorType.white
        PicCut.Direction.both 70).2.2.2 ∧
    (PicCut.detect_whitespace PicCut.aImg PicCut.ColorType.white
      PicCut.Direction.both 70).2.2.2 ≤ PicCut.aImg.height :=
  C2_box_invariants PicCut.aImg PicCut.ColorType.white PicCut.Direction.both 70
    (by decide) (by decide)


/-- C4 counterexample: on the all-white 10×10 `a.png` the detected box is
the full image (the scans find nothing and leave the sentinels 0 and
width/height), so the output is 10×10 — not the 1×1 region the claim
states. -/
theorem C4_counterexample :
    (PicCut.trim_whitespace PicCut.aImg "d/Remake/a.png" 0
      PicCut.ColorType.white PicCut.Direction.both).width = 10 ∧
    ¬ ((PicCut.trim_whitespace PicCut.aImg "d/Remake/a.png" 0
      PicCut.ColorType.white PicCut.Direction.both).width = 1 ∧
       (PicCut.trim_whitespace PicCut.aImg "d/Remake/a.png" 0
      PicCut.ColorType.white PicCut.Direction.both).height = 1) := by
  decide

/-- C4 amended: the batch produces exactly 2 outputs in `Remake/`;
`b.png`'s output is exactly the 2×2 black square; `a.png`'s output is the
full 10×10 all-white image (an all-background scan keeps the sentinel
bounds, so the clamp yields the full box, not a 1×1 region). -/
theorem C4_batch_scenario :
    PicCut.c4Outputs.length = 2 ∧
    PicCut.c4Outputs.map Prod.fst = ["d/Remake/a.png", "d/Remake/b.png"] ∧
    PicCut.c4Outputs.map (fun pi => (pi.2.width, pi.2.height)) = [(10, 10), (2, 2)] ∧
    (∀ x, x < 10 → ∀ y, y < 10 →
      (PicCut.trim_whitespace PicCut.aImg "d/Remake/a.png" 0
        PicCut.ColorType.white PicCut.Direction.both).px x y = ⟨255, 255, 255, 255⟩) ∧
    (∀ x, x < 2 → ∀ y, y < 2 →
      (PicCut.trim_whitespace PicCut.bImg "d/Remake/b.png" 0
        PicCut.ColorType.white PicCut.Direction.both).px x y = ⟨0, 0, 0, 255⟩) := by
  decide

/-- C5: the final image written by trim has width
(r−l) + 2·⌊W·p/100⌋ and height (b−t) + 2·⌊H·p/100⌋, the margins computed
from the original image's dimensions (`int(w*p/100.0)`), not the cropped
box's. -/
theorem C5_margin_dimensions (orig : PicCut.Img) (p : Nat)
    (ct : PicCut.ColorType) (dir : PicCut.Direction) (path : String)
    (hp : p ≤ 50) :
    (PicCut.trim_whitespace orig path p ct dir).width =
      ((PicCut.detect_whitespace (PicCut.rgb_for_detection orig ct) ct dir 70).2.1 -
       (PicCut.detect_whitespace (PicCut.rgb_for_detection orig ct) ct dir 70).1) +
        2 * (orig.width * p / 100) ∧
    (PicCut.trim_whitespace orig path p ct dir).height =
      ((PicCut.detect_whitespace (PicCut.rgb_for_detection orig ct) ct dir 70).2.2.2 -
       (PicCut.detect_whitespace (PicCut.rgb_for_detection orig ct) ct dir 70).2.2.1) +
        2 * (orig.height * p / 100) := by
  have hs : (PicCut.saveStep path (PicCut.trim_core orig p ct dir)).width =
      (PicCut.trim_core orig p ct dir).width ∧
      (PicCut.saveStep path (PicCut.trim_core orig p ct dir)).height =
      (PicCut.trim_core orig p ct dir).height := by
    simp only [PicCut.saveStep]
    split
    · split
      · simp [PicCut.convertRGB]
      · exact ⟨rfl, rfl⟩
    · exact ⟨rfl, rfl⟩
  have ht : (PicCut.trim_core orig p ct dir).width =
      ((PicCut.detect_whitespace (PicCut.rgb_for_detection orig ct) ct dir 70).2.1 -
       (PicCut.detect_whitespace (PicCut.rgb_for_detection orig ct) ct dir 70).1) +
        2 * (orig.width * p / 100) ∧
      (PicCut.trim_core orig p ct dir).height =
      ((PicCut.detect_whitespace (PicCut.rgb_for_detection orig ct) ct dir 70).2.2.2 -
       (PicCut.detect_whitespace (PicCut.rgb_for_detection orig ct) ct dir 70).2.2.1) +
        2 * (orig.height * p / 100) := by
    simp only [PicCut.trim_core]
    split
    · split <;> simp [PicCut.pasteImg, PicCut.newImg, PicCut.cropImg]
    · rename_i hpz
      have hp0 : p = 0 := by omega
      subst hp0
      simp [PicCut.cropImg]
  exact ⟨hs.1.trans ht.1, hs.2.trans ht.2⟩

/-- Witness for C5: `b.png` with a 10 percent margin saved to a png path;
the box is (4,6,4,6) and the margins are ⌊10·10/100⌋ = 1 on each side. -/
theorem C5_margin_dimensions_witness :
    (PicCut.trim_whitespace PicCut.bImg "d/Remake/b.png" 10
      PicCut.ColorType.white PicCut.Direction.both).width =
      ((PicCut.detect_whitespace
          (PicCut.rgb_for_detection PicCut.bImg PicCut.ColorType.white)
          PicCut.ColorType.white PicCut.Direction.both 70).2.1 -
       (PicCut.detect_whitespace
          (PicCut.rgb_for_detection PicCut.bImg PicCut.ColorType.white)
          PicCut.ColorType.white PicCut.Direction.both 70).1) +
        2 * (PicCut.bImg.width * 10 / 100) ∧
    (PicCut.trim_whitespace PicCut.bImg "d/Remake/b.png" 10
      PicCut.ColorType.white PicCut.Direction.both).height =
      ((PicCut.detect_whitespace
          (PicCut.rgb_for_detection PicCut.bImg PicCut.ColorType.white)
          PicCut.ColorType.white PicCut.Direction.both 70).2.2.2 -
       (PicCut.detect_whitespace
          (PicCut.rgb_for_detection PicCut.bImg PicCut.ColorType.white)
          PicCut.ColorType.white PicCut.Direction.both 70).2.2.1) +
        2 * (PicCut.bImg.height * 10 / 100) :=
  C5_margin_dimensions PicCut.bImg 10 PicCut.ColorType.white
    PicCut.Direction.both "d/Remake/b.png" (by decide)

/-- C6: if the detection view's first and last columns and first and last
rows each contain a non-background pixel (content touches all four
edges), then with margin 0 the detected box is (0, width, 0, height), the
trimmed image equals the input, and a second run reproduces the same
result. -/
theorem C6_trim_idempotent (img : PicCut.Img) (ct : PicCut.ColorType)
    (hw : 1 ≤ img.width) (hh : 1 ≤ img.height)
    (hl : PicCut.colHasContent (PicCut.rgb_for_detection img ct) ct 70 0 = true)
    (hr : PicCut.colHasContent (PicCut.rgb_for_detection img ct) ct 70
      (img.width - 1) = true)
    (ht : PicCut.rowHasContent (PicCut.rgb_for_detection img ct) ct 70 0 = true)
    (hb : PicCut.rowHasContent (PicCut.rgb_for_detection img ct) ct 70
      (img.height - 1) = true) :
    PicCut.detect_whitespace (PicCut.rgb_for_detection img ct) ct
      PicCut.Direction.both 70 = (0, img.width, 0, img.height) ∧
    PicCut.trim_core img 0 ct PicCut.Direction.both = img ∧
    PicCut.trim_core (PicCut.trim_core img 0 ct PicCut.Direction.both) 0 ct
      PicCut.Direction.both = PicCut.trim_core img 0 ct PicCut.Direction.both := by
  have hdims := PicCut.rgb_for_detection_dims img ct
  have hfL : (List.range (PicCut.rgb_for_detection img ct).width).find?
      (PicCut.colHasContent (PicCut.rgb_for_detection img ct) ct 70) = some 0 :=
    PicCut.find_range_head (by omega) hl
  have hfR : (List.range (PicCut.rgb_for_detection img ct).width).reverse.find?
      (PicCut.colHasContent (PicCut.rgb_for_detection img ct) ct 70) =
      some ((PicCut.rgb_for_detection img ct).width - 1) :=
    PicCut.find_range_reverse_last (by omega) (by rw [hdims.1]; exact hr)
  have hfT : (List.range (PicCut.rgb_for_detection img ct).height).find?
      (PicCut.rowHasContent (PicCut.rgb_for_detection img ct) ct 70) = some 0 :=
    PicCut.find_range_head (by omega) ht
  have hfB : (List.range (PicCut.rgb_for_detection img ct).height).reverse.find?
      (PicCut.rowHasContent (PicCut.rgb_for_detection img ct) ct 70) =
      some ((PicCut.rgb_for_detection img ct).height - 1) :=
    PicCut.find_range_reverse_last (by omega) (by rw [hdims.2]; exact hb)
  have hbox : PicCut.detect_whitespace (PicCut.rgb_for_detection img ct) ct
      PicCut.Direction.both 70 = (0, img.width, 0, img.height) := by
    simp only [PicCut.detect_whitespace, hfL, hfR, hfT, hfB]
    simp [PicCut.clampBox, Prod.ext_iff, hdims.1, hdims.2]
    omega
  have htrim : PicCut.trim_core img 0 ct PicCut.Direction.both = img := by
    simp only [PicCut.trim_core, hbox]
    simp only [gt_iff_lt, Nat.lt_irrefl, if_false]
    apply PicCut.Img.eq_of_fields
    · simp [PicCut.cropImg]
    · simp [PicCut.cropImg]
    · rfl
    · funext x y
      simp [PicCut.cropImg]
    · rfl
  exact ⟨hbox, htrim, by simp only [htrim]⟩

/-- Witness for C6: the 2×2 all-black image under white mode touches all
four edges; trimming it is the identity. -/
theorem C6_trim_idempotent_witness :
    PicCut.detect_whitespace
      (PicCut.rgb_for_detection PicCut.allBlack2 PicCut.ColorType.white)
      PicCut.ColorType.white PicCut.Direction.both 70 =
      (0, PicCut.allBlack2.width, 0, PicCut.allBlack2.height) ∧
    PicCut.trim_core PicCut.allBlack2 0 PicCut.ColorType.white
      PicCut.Direction.both = PicCut.allBlack2 ∧
    PicCut.trim_core (PicCut.trim_core PicCut.allBlack2 0 PicCut.ColorType.white
      PicCut.Direction.both) 0 PicCut.ColorType.white PicCut.Direction.both =
      PicCut.trim_core PicCut.allBlack2 0 PicCut.ColorType.white
        PicCut.Direction.both :=
  C6_trim_idempotent PicCut.allBlack2 PicCut.ColorType.white
    (by decide) (by decide) (by decide) (by decide) (by decide) (by decide)

/-- C7: when the output extension lowercases to `.jpg`, `.jpeg` or
`.bmp`, the image actually saved carries no alpha (mode RGB or L,
transparency dropped); when it lowercases to `.png`, `.webp`, `.gif` or
`.tiff`, the image is saved in its current mode unchanged, so input
transparency survives in the output. -/
theorem C7_save_alpha_policy (path : String) (img : PicCut.Img) :
    (PicCut.lowerStr (PicCut.extOfPath path) = ".jpg" ∨
     PicCut.lowerStr (PicCut.extOfPath path) = ".jpeg" ∨
     PicCut.lowerStr (PicCut.extOfPath path) = ".bmp" →
      PicCut.has_alpha (PicCut.saveStep path img) = false ∧
      ((PicCut.saveStep path img).mode = PicCut.Mode.RGB ∨
       (PicCut.saveStep path img).mode = PicCut.Mode.L)) ∧
    (PicCut.lowerStr (PicCut.extOfPath path) = ".png" ∨
     PicCut.lowerStr (PicCut.extOfPath path) = ".webp" ∨
     PicCut.lowerStr (PicCut.extOfPath path) = ".gif" ∨
     PicCut.lowerStr (PicCut.extOfPath path) = ".tiff" →
      PicCut.saveStep path img = img) := by
  constructor
  · intro hext
    simp only [PicCut.saveStep, if_pos hext]
    split
    · exact ⟨rfl, Or.inl rfl⟩
    · rename_i hcond
      simp only [Bool.or_eq_true, Bool.not_eq_true', Bool.or_eq_false_iff,
        decide_eq_false_iff_not, not_or] at hcond
      push_neg at hcond
      refine ⟨Bool.eq_false_iff.mpr hcond.1, ?_⟩
      by_cases hR : img.mode = PicCut.Mode.RGB
      · exact Or.inl hR
      · exact Or.inr (hcond.2 hR)
  · intro hext
    have hne : ¬ (PicCut.lowerStr (PicCut.extOfPath path) = ".jpg" ∨
        PicCut.lowerStr (PicCut.extOfPath path) = ".jpeg" ∨
        PicCut.lowerStr (PicCut.extOfPath path) = ".bmp") := by
      rcases hext with h | h | h | h <;> rw [h] <;> decide
    simp only [PicCut.saveStep, if_neg hne]

namespace PicCut

theorem batchLoop_noCancel (tr : String → Except String Unit) (total : Nat) :
    ∀ (i : Nat) (l : List String) (st : BatchState),
      (batchLoop tr (fun _ => false) total i l st).errors =
        st.errors ++ l.filterMap (errEntry tr) ∧
      (batchLoop tr (fun _ => false) total i l st).processed =
        st.processed + l.length := by
  intro i l
  induction l generalizing i with
  | nil => intro st; simp [batchLoop]
  | cons a l ih =>
    intro st
    simp only [batchLoop, Bool.false_eq_true, if_false]
    cases h : tr a with
    | ok u =>
      have := ih (i + 1)
        { st with processed := st.processed + 1,
                  progressLog := st.progressLog ++ [(i, total)] }
      simp only [h] at this ⊢
      simp [this, errEntry, h, List.length_cons]
      omega
    | error e =>
      have := ih (i + 1)
        { st with processed := st.processed + 1,
                  errors := st.errors ++ [a ++ ": " ++ e],
                  progressLog := st.progressLog ++ [(i, total)] }
      simp only [h] at this ⊢
      simp [this, errEntry, h, List.length_cons]
      omega

theorem errEntry_eq_none {tr : String → Except String Unit} {src : String} :
    errEntry tr src = none ↔ tr src = Except.ok () := by
  cases h : tr src with
  | ok u => cases u; simp [errEntry, h]
  | error e => simp [errEntry, h]

end PicCut

/-- C8: with no cancellation, a per-file failure does not abort the run:
every failing file contributes exactly the string `"<src>: <e>"` to the
returned error list in file order, every file is processed, and the list
is empty exactly when every processed file succeeded. -/
theorem C8_error_accumulation (targets : List String)
    (tr : String → Except String Unit) :
    (PicCut.process_targets targets tr (fun _ => false)).errors =
      targets.filterMap (PicCut.errEntry tr) ∧
    ((PicCut.process_targets targets tr (fun _ => false)).errors = [] ↔
      ∀ src ∈ targets, tr src = Except.ok ()) ∧
    (PicCut.process_targets targets tr (fun _ => false)).processed =
      targets.length := by
  have h := PicCut.batchLoop_noCancel tr targets.length 1 targets
    { errors := [], progressLog := [(0, targets.length)], processed := 0 }
  have herr : (PicCut.process_targets targets tr (fun _ => false)).errors =
      targets.filterMap (PicCut.errEntry tr) := by
    simpa [PicCut.process_targets] using h.1
  refine ⟨herr, ?_, by simpa [PicCut.process_targets] using h.2⟩
  rw [herr, List.filterMap_eq_nil_iff]
  constructor
  · intro hall src hsrc
    exact PicCut.errEntry_eq_none.mp (hall src hsrc)
  · intro hall src hsrc
    exact PicCut.errEntry_eq_none.mpr (hall src hsrc)

/-- C9 counterexample: over 5 target files with a cancellation flag that
becomes true immediately after the 2nd progress callback, the runner
processes exactly 1 file — not the 2 the claim states. The initial
`(0, total)` report is itself the 1st progress callback, so the flag is
already true at the check before the 2nd file. -/
theorem C9_counterexample :
    (PicCut.process_targets PicCut.fiveFiles PicCut.allOk
      PicCut.cancelAfter2).processed = 1 ∧
    (PicCut.process_targets PicCut.fiveFiles PicCut.allOk
      PicCut.cancelAfter2).processed ≠ 2 := by
  decide

/-- C9 amended: once the cancellation predicate returns true at the check
before a file, the loop returns at once with the errors accumulated so
far; and over 5 target files with a flag that becomes true immediately
after the 2nd progress callback (the initial `(0, total)` report being
the 1st), the runner stops after processing exactly 1 file and returns
whatever errors occurred in that file. -/
theorem C9_cancellation (targets : List String)
    (tr : String → Except String Unit) (h5 : targets.length = 5) :
    (PicCut.process_targets targets tr PicCut.cancelAfter2).processed = 1 ∧
    (PicCut.process_targets targets tr PicCut.cancelAfter2).errors =
      (targets.take 1).filterMap (PicCut.errEntry tr) ∧
    (∀ (ic : Nat → Bool) (total i : Nat) (l : List String)
        (st : PicCut.BatchState),
      ic st.progressLog.length = true →
      PicCut.batchLoop tr ic total i l st = st) := by
  have hstop : ∀ (ic : Nat → Bool) (total i : Nat) (l : List String)
      (st : PicCut.BatchState),
      ic st.progressLog.length = true →
      PicCut.batchLoop tr ic total i l st = st := by
    intro ic total i l st hic
    cases l with
    | nil => rfl
    | cons a l => simp [PicCut.batchLoop, hic]
  refine ⟨?_, ?_, hstop⟩ <;>
  · rcases targets with _ | ⟨a, _ | ⟨b, _ | ⟨c, _ | ⟨d, _ | ⟨e, rest⟩⟩⟩⟩⟩ <;>
      simp only [List.length] at h5 <;> try omega
    have hr : rest = [] := by
      cases rest with
      | nil => rfl
      | cons f rs => simp [List.length] at h5
    subst hr
    cases h : tr a <;>
      simp [PicCut.process_targets, PicCut.batchLoop, PicCut.cancelAfter2,
        PicCut.errEntry, h]

/-- Witness for C9 at concrete inputs: five files of which the first
fails with "boom". -/
theorem C9_cancellation_witness :
    (PicCut.process_targets PicCut.fiveFiles PicCut.failFirst
      PicCut.cancelAfter2).processed = 1 ∧
    (PicCut.process_targets PicCut.fiveFiles PicCut.failFirst
      PicCut.cancelAfter2).errors =
      (PicCut.fiveFiles.take 1).filterMap (PicCut.errEntry PicCut.failFirst) ∧
    (∀ (ic : Nat → Bool) (total i : Nat) (l : List String)
        (st : PicCut.BatchState),
      ic st.progressLog.length = true →
      PicCut.batchLoop PicCut.failFirst ic total i l st = st) :=
  C9_cancellation PicCut.fiveFiles PicCut.failFirst (by decide)

/-- C10: the detection threshold in the trim pipeline is exactly 70:
`detect_whitespace`'s parameter defaults to 70, the crop box `trim_core`
uses is the threshold-70 box, and two runs whose configurations agree on
the fields the call surface actually carries (color mode, axis mode,
margin) — i.e. differ only in an intended threshold setting — produce
identical outputs, hence identical bounding boxes. -/
theorem C10_threshold_fixed :
    (∀ (img : PicCut.Img) (ct : PicCut.ColorType) (dir : PicCut.Direction),
      PicCut.detect_whitespace img ct dir =
        PicCut.detect_whitespace img ct dir 70) ∧
    (∀ (orig : PicCut.Img) (ct : PicCut.ColorType) (dir : PicCut.Direction),
      (PicCut.trim_core orig 0 ct dir).width =
        (PicCut.detect_whitespace (PicCut.rgb_for_detection orig ct) ct dir 70).2.1 -
        (PicCut.detect_whitespace (PicCut.rgb_for_detection orig ct) ct dir 70).1 ∧
      (PicCut.trim_core orig 0 ct dir).height =
        (PicCut.detect_whitespace (PicCut.rgb_for_detection orig ct) ct dir 70).2.2.2 -
        (PicCut.detect_whitespace (PicCut.rgb_for_detection orig ct) ct dir 70).2.2.1) ∧
    (∀ cfg1 cfg2 : PicCut.RunConfig,
      cfg1.color_type = cfg2.color_type →
      cfg1.direction = cfg2.direction →
      cfg1.keep_margin_percent = cfg2.keep_margin_percent →
      ∀ (orig : PicCut.Img) (path : String),
        PicCut.runTrim cfg1 orig path = PicCut.runTrim cfg2 orig path) := by
  refine ⟨fun _ _ _ => rfl, ?_, ?_⟩
  · intro orig ct dir
    simp [PicCut.trim_core, PicCut.cropImg]
  · intro cfg1 cfg2 hct hdir hm orig path
    cases cfg1; cases cfg2
    simp_all [PicCut.runTrim]
